import Mathlib

/-
Verification development for the database-backed resume data storage
(src/src/base/bittorrent/dbresumedatastorage.cpp).

The SQLite table of torrents is modelled as a list of rows (the unique
constraint on the torrent id appears as hypotheses where needed), the
bencoded resume blob is modelled as either an undecodable payload or a
structured record of exactly the fields the storage layer reads and
writes, and each job class (StoreJob, RemoveJob, StoreQueueJob) becomes a
pure function on the modelled table.
-/

namespace DBResume

/-- Identifier of a torrent; the storage layer only converts it to and
from its string form, so the model uses the string directly. -/
abbrev TorrentID := String

/-- Tag strings are modelled as lists of characters so that the
comma join and split performed by the storage layer can be reasoned
about character by character. -/
abbrev Tag := List Char

/-- Enumeration TorrentOperatingMode from the source tree, persisted by
its string tag. -/
inductive TorrentOperatingMode
  | AutoManaged
  | Forced
deriving DecidableEq, Repr

/-- Enumeration Torrent::StopCondition from the source tree, persisted by
its string tag. -/
inductive StopCondition
  | None
  | MetadataReceived
  | FilesChecked
deriving DecidableEq, Repr

/-- Enumeration TorrentContentLayout from the source tree, persisted by
its string tag. -/
inductive TorrentContentLayout
  | Original
  | Subfolder
  | NoSubfolder
deriving DecidableEq, Repr

/-- Modelled from the spec: closed enumerations are persisted as their
string tag (Utils::String::fromEnum, whose implementation is outside
src/). -/
def TorrentOperatingMode.fromEnum : TorrentOperatingMode → String
  | .AutoManaged => "AutoManaged"
  | .Forced => "Forced"

/-- Modelled from the spec: parsing an enumeration tag; an unknown tag
yields the supplied default, never an error (Utils::String::toEnum,
whose implementation is outside src/). -/
def TorrentOperatingMode.toEnum (s : String) (dflt : TorrentOperatingMode) : TorrentOperatingMode :=
  if s = "AutoManaged" then .AutoManaged
  else if s = "Forced" then .Forced
  else dflt

/-- Modelled from the spec: string tag of Torrent::StopCondition. -/
def StopCondition.fromEnum : StopCondition → String
  | .None => "None"
  | .MetadataReceived => "MetadataReceived"
  | .FilesChecked => "FilesChecked"

/-- Modelled from the spec: parsing a Torrent::StopCondition tag with a
default for unknown tags. -/
def StopCondition.toEnum (s : String) (dflt : StopCondition) : StopCondition :=
  if s = "None" then .None
  else if s = "MetadataReceived" then .MetadataReceived
  else if s = "FilesChecked" then .FilesChecked
  else dflt

/-- Modelled from the spec: string tag of TorrentContentLayout. -/
def TorrentContentLayout.fromEnum : TorrentContentLayout → String
  | .Original => "Original"
  | .Subfolder => "Subfolder"
  | .NoSubfolder => "NoSubfolder"

/-- Modelled from the spec: parsing a TorrentContentLayout tag with a
default for unknown tags. -/
def TorrentContentLayout.toEnum (s : String) (dflt : TorrentContentLayout) : TorrentContentLayout :=
  if s = "Original" then .Original
  else if s = "Subfolder" then .Subfolder
  else if s = "NoSubfolder" then .NoSubfolder
  else dflt

/-- Modelled from the spec: Profile::toPortablePath rewrites a path to a
form independent of the installation root (base/profile is outside
src/); the rewrite itself is out of scope for every claim, so the model
abstracts it as the identity on the modelled path strings. -/
def toPortablePath (p : String) : String := p

/-- Modelled from the spec: Profile::fromPortablePath, inverse rewrite
of toPortablePath, likewise abstracted as the identity. -/
def fromPortablePath (p : String) : String := p

/-- Metadata sub-fields that StoreJob::perform extracts from the
bencoded resume data into the separate metadata column: the info
dictionary, creation date, created by and comment entries. -/
structure TorrentMetadata where
  info : String
  creationDate : Int
  createdBy : String
  comment : String
deriving DecidableEq, Repr

/-- Fields of lt::add_torrent_params that the storage layer reads or
writes: the three torrent flags it manipulates, the embedded save path
it rewrites, and the optional torrent info whose presence controls the
metadata column. -/
structure AddTorrentParams where
  paused : Bool
  autoManaged : Bool
  stopWhenReady : Bool
  savePath : String
  ti : Option TorrentMetadata
deriving DecidableEq, Repr

/-- Default-constructed lt::add_torrent_params, produced by
lt::read_resume_data when decoding fails; its default flags include
auto_managed. -/
def defaultAddTorrentParams : AddTorrentParams :=
  { paused := false, autoManaged := true, stopWhenReady := false, savePath := "", ti := none }

/-- Value of the libtorrent_resume_data column: either bytes that fail
to bdecode, or a valid encoding of the modelled add-torrent params
(lt::write_resume_data and lt::read_resume_data are mutually inverse on
the fields the model keeps). -/
inductive StoredBlob
  | undecodable
  | valid (p : AddTorrentParams)
deriving DecidableEq, Repr

/-- Decoding of the resume blob as performed by parseQueryResultRow:
lt::bdecode followed by lt::read_resume_data with the error code
ignored, so an undecodable blob silently yields default-constructed
params. -/
def decodeBlob : StoredBlob → AddTorrentParams
  | .undecodable => defaultAddTorrentParams
  | .valid p => p

/-- LoadTorrentParams, the in-memory resume descriptor, restricted to
the fields the storage layer consumes. -/
structure LoadTorrentParams where
  ltAddTorrentParams : AddTorrentParams
  name : String
  category : String
  tags : List Tag
  savePath : String
  downloadPath : String
  useAutoTMM : Bool
  firstLastPiecePriority : Bool
  hasFinishedStatus : Bool
  stopped : Bool
  operatingMode : TorrentOperatingMode
  contentLayout : TorrentContentLayout
  stopCondition : StopCondition
  ratioLimit : ℚ
  seedingTimeLimit : Int
deriving DecidableEq, Repr

/-- Row of the torrents table; the INTEGER PRIMARY KEY rowid is omitted
(no code path reads it), identity for conflict purposes is the unique
torrent_id column. Nullable TEXT and BLOB columns are options. -/
structure Row where
  torrentId : TorrentID
  queuePosition : Int
  name : String
  category : String
  tags : Option (List Char)
  targetSavePath : Option String
  downloadPath : Option String
  contentLayout : String
  ratioLimit : Int
  seedingTimeLimit : Int
  hasOuterPiecesPriority : Bool
  hasSeedStatus : Bool
  operatingMode : String
  stopped : Bool
  stopCondition : String
  resumeData : StoredBlob
  metadata : Option TorrentMetadata
deriving DecidableEq, Repr

/-- Truncation of a rational toward zero, the semantics of the C++
static_cast<int> applied to the scaled ratio limit. -/
def ratTrunc (q : ℚ) : Int := Int.tdiv q.num (q.den : Int)

/-- Value stored in the ratio_limit column by StoreJob::perform:
static_cast<int>(ratioLimit * 1000). -/
def encodeRatioLimit (q : ℚ) : Int := ratTrunc (q * 1000)

/-- Value recovered from the ratio_limit column by parseQueryResultRow:
the stored integer divided by 1000.0. -/
def decodeRatioLimit (n : Int) : ℚ := (n : ℚ) / 1000

/-- Concatenation of tag strings with a separator character, the model
of joining the tag set with a comma in StoreJob::perform. -/
def joinSep (c : Char) : List Tag → List Char
  | [] => []
  | [t] => t
  | t :: t2 :: ts => t ++ c :: joinSep c (t2 :: ts)

/-- Splitting a character list at every occurrence of the separator,
keeping empty parts, the model of QString::split on a comma in
parseQueryResultRow. -/
def splitOnChar (c : Char) : List Char → List Tag
  | [] => [[]]
  | x :: xs =>
    match splitOnChar c xs with
    | [] => [[]]
    | y :: ys => if x = c then [] :: y :: ys else (x :: y) :: ys

/-- Value bound to the tags column by StoreJob::perform: NULL for an
empty tag set, otherwise the comma-joined tag strings. -/
def encodeTags (tags : List Tag) : Option (List Char) :=
  if tags.isEmpty then none else some (joinSep ',' tags)

/-- Tag set recovered from the tags column by parseQueryResultRow: an
absent or empty string yields the empty set, anything else is split at
every comma. -/
def decodeTags (v : Option (List Char)) : List Tag :=
  match v with
  | none => []
  | some s => if s.isEmpty then [] else splitOnChar ',' s

/-- Row computed by StoreJob::perform from a descriptor: the portable
save path rewrite, the operating-state flag normalization, the
metadata extraction into its own column, and the per-column bindings of
the upsert statement. The queue_position value -1 is the column default
applied when the statement inserts a fresh row. -/
def storedRow (id : TorrentID) (rd : LoadTorrentParams) : Row :=
  let p0 := rd.ltAddTorrentParams
  let p1 := { p0 with savePath := toPortablePath p0.savePath }
  let p :=
    if rd.stopped then { p1 with paused := true, autoManaged := false }
    else if rd.operatingMode = TorrentOperatingMode.AutoManaged then
      { p1 with autoManaged := true }
    else { p1 with paused := false, autoManaged := false }
  let bencodedMetadata : Option TorrentMetadata := p.ti
  let core : AddTorrentParams :=
    match bencodedMetadata with
    | none => p
    | some _ => { p with ti := none }
  { torrentId := id
    queuePosition := -1
    name := rd.name
    category := rd.category
    tags := encodeTags rd.tags
    targetSavePath := if rd.useAutoTMM then none else some (toPortablePath rd.savePath)
    downloadPath := if rd.useAutoTMM then none else some (toPortablePath rd.downloadPath)
    contentLayout := rd.contentLayout.fromEnum
    ratioLimit := encodeRatioLimit rd.ratioLimit
    seedingTimeLimit := rd.seedingTimeLimit
    hasOuterPiecesPriority := rd.firstLastPiecePriority
    hasSeedStatus := rd.hasFinishedStatus
    operatingMode := rd.operatingMode.fromEnum
    stopped := rd.stopped
    stopCondition := rd.stopCondition.fromEnum
    resumeData := StoredBlob.valid core
    metadata := bencodedMetadata }

/-- Effect of StoreJob::perform on the table: one INSERT with an ON
CONFLICT (torrent_id) DO UPDATE clause whose SET list contains every
bound column but never queue_position, and contains metadata only when
the descriptor carries torrent info. -/
def storeJobPerform (id : TorrentID) (rd : LoadTorrentParams) (db : List Row) : List Row :=
  let new := storedRow id rd
  if db.any (fun r => r.torrentId = id) then
    db.map (fun r =>
      if r.torrentId = id then
        { new with
            queuePosition := r.queuePosition
            metadata := if new.metadata.isSome then new.metadata else r.metadata }
      else r)
  else db ++ [new]

/-- Effect of RemoveJob::perform on the table: DELETE of every row with
the given torrent_id. -/
def removeJobPerform (id : TorrentID) (db : List Row) : List Row :=
  db.filter (fun r => r.torrentId ≠ id)

/-- Single UPDATE statement of StoreQueueJob::perform: set
queue_position of every row with the given torrent_id. -/
def setQueuePos (id : TorrentID) (pos : Int) (db : List Row) : List Row :=
  db.map (fun r => if r.torrentId = id then { r with queuePosition := pos } else r)

/-- Loop of StoreQueueJob::perform: a position counter starting at 0 and
incremented once per identifier of the sequence. -/
def storeQueueGo (pos : Int) : List TorrentID → List Row → List Row
  | [], db => db
  | id :: rest, db => storeQueueGo (pos + 1) rest (setQueuePos id pos db)

/-- Effect of StoreQueueJob::perform on the table. -/
def storeQueueJobPerform (queue : List TorrentID) (db : List Row) : List Row :=
  storeQueueGo 0 queue db

/-- Insertion of a row into a list already ordered by queue position. -/
def insertByQueuePos (r : Row) : List Row → List Row
  | [] => [r]
  | x :: xs =>
    if r.queuePosition ≤ x.queuePosition then r :: x :: xs
    else x :: insertByQueuePos r xs

/-- Ordering of rows by the queue_position column, the model of the
ORDER BY clause of the SELECT statements; for rows with equal positions
SQLite fixes no order, the model refines that freedom to a stable
insertion sort and ordering theorems assume distinct positions. -/
def sortByQueuePos : List Row → List Row
  | [] => []
  | r :: rs => insertByQueuePos r (sortByQueuePos rs)

/-- DBResumeDataStorage::registeredTorrents: identifiers of all rows
ordered by queue position. -/
def registeredTorrents (db : List Row) : List TorrentID :=
  (sortByQueuePos db).map Row.torrentId

/-- Inverse transform run by parseQueryResultRow on one selected row:
tag splitting, ratio descaling, enum parsing with defaults, automatic
path management detection, blob decoding with ignored error codes,
metadata merging, portable path restoration and the legacy
stop_when_ready shim. -/
def parseQueryResultRow (row : Row) : LoadTorrentParams :=
  let tags : List Tag := decodeTags row.tags
  let savePath := fromPortablePath (row.targetSavePath.getD "")
  let useAutoTMM := savePath.isEmpty
  let downloadPath :=
    if useAutoTMM then "" else fromPortablePath (row.downloadPath.getD "")
  let p0 := decodeBlob row.resumeData
  let p1 :=
    match row.metadata with
    | none => p0
    | some m => { p0 with ti := some m }
  let p2 := { p1 with savePath := fromPortablePath p1.savePath }
  let stopCondition0 := StopCondition.toEnum row.stopCondition StopCondition.None
  let p3 := if p2.stopWhenReady then { p2 with stopWhenReady := false } else p2
  let stopCondition :=
    if p2.stopWhenReady then StopCondition.FilesChecked else stopCondition0
  { ltAddTorrentParams := p3
    name := row.name
    category := row.category
    tags := tags
    savePath := savePath
    downloadPath := downloadPath
    useAutoTMM := useAutoTMM
    firstLastPiecePriority := row.hasOuterPiecesPriority
    hasFinishedStatus := row.hasSeedStatus
    stopped := row.stopped
    operatingMode := TorrentOperatingMode.toEnum row.operatingMode TorrentOperatingMode.AutoManaged
    contentLayout := TorrentContentLayout.toEnum row.contentLayout TorrentContentLayout.Original
    stopCondition := stopCondition
    ratioLimit := decodeRatioLimit row.ratioLimit
    seedingTimeLimit := row.seedingTimeLimit }

/-- Errors DBResumeDataStorage::load can signal on the client side: the
absent-row case (the code wraps the message Not found); no other error
kind is constructed from row contents. -/
inductive LoadError
  | notFound
deriving DecidableEq, Repr

/-- DBResumeDataStorage::load: select the row by identifier, signal an
error when no row matches, otherwise run parseQueryResultRow on it. -/
def load (id : TorrentID) (db : List Row) : Except LoadError LoadTorrentParams :=
  match db.find? (fun r => r.torrentId = id) with
  | none => Except.error LoadError.notFound
  | some row => Except.ok (parseQueryResultRow row)

/-- Predicate on a load result: a record was returned. -/
def loadReturnsRecord (res : Except LoadError LoadTorrentParams) : Bool :=
  match res with
  | Except.ok _ => true
  | Except.error _ => false

/-- Events of one doLoadAll execution, in the order the source emits
them: the QReadLocker acquisition, the loadStarted signal carrying the
ordered identifier list, one record callback per selected row, the
QReadLocker release at the end of its scope, and the loadFinished
signal. -/
inductive LoadAllEvent
  | lockAcquired
  | startEvent (ids : List TorrentID)
  | recordEvent (id : TorrentID) (rd : LoadTorrentParams)
  | lockReleased
  | finishEvent
deriving DecidableEq, Repr

/-- Trace of DBResumeDataStorage::doLoadAll: the read lock is taken,
loadStarted is emitted, each row is delivered in queue-position order,
then the locker goes out of scope releasing the lock, and only after
that is loadFinished emitted. -/
def doLoadAllTrace (db : List Row) : List LoadAllEvent :=
  [LoadAllEvent.lockAcquired, LoadAllEvent.startEvent (registeredTorrents db)]
    ++ (sortByQueuePos db).map (fun r => LoadAllEvent.recordEvent r.torrentId (parseQueryResultRow r))
    ++ [LoadAllEvent.lockReleased, LoadAllEvent.finishEvent]

/-- Schema version constant DB_VERSION of the source. -/
def DB_VERSION : Int := 4

/-- Observable state of a pre-existing database file at open time:
whether the torrents table already has the download_path column added
in version 2, and the stored version counter of the meta table (none
when the counter is missing or unreadable). -/
structure ExistingFile where
  hasDownloadPathColumn : Bool
  storedVersion : Option Int
deriving DecidableEq, Repr

/-- Input of one open attempt: the pre-existing file when there is one
(none means the file is freshly created), and whether some SQL
statement issued during open fails. -/
structure OpenInput where
  existing : Option ExistingFile
  sqlFailure : Bool
deriving DecidableEq, Repr

/-- Outcome of the DBResumeDataStorage constructor: the stored schema
version on success, or propagation of a RuntimeError that aborts
startup. -/
inductive OpenResult
  | ok (storedVersion : Int)
  | fatal
deriving DecidableEq, Repr

/-- Version the constructor infers for a pre-existing file: 1 when the
download_path column is absent, otherwise the stored counter (whose
unreadability raises the Database-is-corrupted error). -/
def inferredDBVersion (f : ExistingFile) : Option Int :=
  if !f.hasDownloadPathColumn then some 1 else f.storedVersion

/-- DBResumeDataStorage constructor: create the schema at DB_VERSION for
a fresh file, otherwise infer the on-disk version and run updateDB
(which ends by storing DB_VERSION) only when the inferred version is
below DB_VERSION; any RuntimeError thrown by createDB, currentDBVersion
or updateDB propagates out of the constructor. -/
def openStorage (inp : OpenInput) : OpenResult :=
  if inp.sqlFailure then OpenResult.fatal
  else
    match inp.existing with
    | none => OpenResult.ok DB_VERSION
    | some f =>
      match inferredDBVersion f with
      | none => OpenResult.fatal
      | some v => if v < DB_VERSION then OpenResult.ok DB_VERSION else OpenResult.ok v

/-! Concrete sample values used by witnesses and counterexamples. -/

/-- Sample metadata payload. -/
def metaSample : TorrentMetadata :=
  { info := "info0", creationDate := 1, createdBy := "creator", comment := "comment0" }

/-- Sample add-torrent params with every modelled flag cleared. -/
def atpSample : AddTorrentParams :=
  { paused := false, autoManaged := false, stopWhenReady := false, savePath := "sp", ti := none }

/-- Sample descriptor: a running, forcibly managed torrent with
automatic path management, no tags and no metadata. -/
def rdSample : LoadTorrentParams :=
  { ltAddTorrentParams := atpSample
    name := "name0"
    category := "cat0"
    tags := []
    savePath := ""
    downloadPath := ""
    useAutoTMM := true
    firstLastPiecePriority := false
    hasFinishedStatus := false
    stopped := false
    operatingMode := TorrentOperatingMode.Forced
    contentLayout := TorrentContentLayout.Original
    stopCondition := StopCondition.None
    ratioLimit := 0
    seedingTimeLimit := 0 }

/-- Sample persisted row holding a metadata blob and queue position 7. -/
def rowSample : Row :=
  { torrentId := "t1"
    queuePosition := 7
    name := "oldname"
    category := "oldcat"
    tags := none
    targetSavePath := none
    downloadPath := none
    contentLayout := "Original"
    ratioLimit := 0
    seedingTimeLimit := 0
    hasOuterPiecesPriority := false
    hasSeedStatus := false
    operatingMode := "Forced"
    stopped := false
    stopCondition := "None"
    resumeData := StoredBlob.valid atpSample
    metadata := some metaSample }

/-! Claim theorems. -/

/-- C5: for every persisted row whose decoded resume blob has the legacy
stop_when_ready flag set, parseQueryResultRow clears that flag in the
returned descriptor and sets the stop-condition enum to FilesChecked,
overriding whatever the stop_condition column stores. -/
theorem parse_clears_stop_when_ready (row : Row)
    (h : (decodeBlob row.resumeData).stopWhenReady = true) :
    (parseQueryResultRow row).ltAddTorrentParams.stopWhenReady = false ∧
    (parseQueryResultRow row).stopCondition = StopCondition.FilesChecked := by
  cases hm : row.metadata <;> simp [parseQueryResultRow, hm, h]

/-- C5 witness: a concrete row with the legacy flag set in its blob and
the stop_condition column storing the None tag. -/
theorem parse_clears_stop_when_ready_witness :
    (decodeBlob ({ rowSample with
        resumeData := StoredBlob.valid { atpSample with stopWhenReady := true } } : Row).resumeData).stopWhenReady = true ∧
    ((parseQueryResultRow { rowSample with
        resumeData := StoredBlob.valid { atpSample with stopWhenReady := true } }).ltAddTorrentParams.stopWhenReady = false ∧
      (parseQueryResultRow { rowSample with
        resumeData := StoredBlob.valid { atpSample with stopWhenReady := true } }).stopCondition = StopCondition.FilesChecked) :=
  ⟨by decide, parse_clears_stop_when_ready _ (by decide)⟩

/-- C6: the flags written into the encoded resume blob by a store job
satisfy the normalization of StoreJob::perform: a stopped descriptor is
written paused and not auto-managed; a running descriptor in
auto-managed operating mode is written auto-managed; a running
descriptor in forced operating mode is written neither paused nor
auto-managed. -/
theorem store_normalizes_flags (id : TorrentID) (rd : LoadTorrentParams) :
    (rd.stopped = true →
      (decodeBlob (storedRow id rd).resumeData).paused = true ∧
      (decodeBlob (storedRow id rd).resumeData).autoManaged = false) ∧
    (rd.stopped = false → rd.operatingMode = TorrentOperatingMode.AutoManaged →
      (decodeBlob (storedRow id rd).resumeData).autoManaged = true) ∧
    (rd.stopped = false → rd.operatingMode ≠ TorrentOperatingMode.AutoManaged →
      (decodeBlob (storedRow id rd).resumeData).paused = false ∧
      (decodeBlob (storedRow id rd).resumeData).autoManaged = false) := by
  cases hs : rd.stopped <;>
    cases hm : rd.operatingMode <;>
      cases hti : rd.ltAddTorrentParams.ti <;>
        simp [storedRow, hs, hm, hti, decodeBlob]

/-- C6 witness: a stopped descriptor is stored paused and not
auto-managed. -/
theorem store_normalizes_flags_witness :
    ({ rdSample with stopped := true } : LoadTorrentParams).stopped = true ∧
    ((decodeBlob (storedRow "t1" { rdSample with stopped := true }).resumeData).paused = true ∧
      (decodeBlob (storedRow "t1" { rdSample with stopped := true }).resumeData).autoManaged = false) :=
  ⟨rfl, (store_normalizes_flags "t1" { rdSample with stopped := true }).1 rfl⟩

/-- C9: a store job never writes the queue_position column: the
projection of the table onto that column is unchanged when a row with
the identifier already exists, and extended by the schema default -1
when the store inserts a fresh row; a remove job keeps every surviving
row (hence its queue position) intact. -/
theorem store_never_writes_queue_position (id : TorrentID) (rd : LoadTorrentParams)
    (db : List Row) :
    ((storeJobPerform id rd db).map Row.queuePosition =
      if db.any (fun r => r.torrentId = id) then db.map Row.queuePosition
      else db.map Row.queuePosition ++ [-1]) ∧
    (∀ r ∈ db, r.torrentId ≠ id → r ∈ removeJobPerform id db) := by
  constructor
  · by_cases h : db.any (fun r => r.torrentId = id) = true
    · simp only [storeJobPerform, h, if_true, List.map_map]
      apply List.map_congr_left
      intro r _
      by_cases hr : r.torrentId = id <;> simp [hr]
    · simp only [storeJobPerform, h, if_false, Bool.not_eq_true] at *
      simp [h, storedRow]
  · intro r hr hne
    simp [removeJobPerform, List.mem_filter, hr, hne]

/-- C9 witness: storing a fresh identifier into a one-row table appends
queue position -1 and keeps the existing position 7; storing an
existing identifier keeps the projection unchanged; the remove frame
holds for the surviving row. -/
theorem store_never_writes_queue_position_witness :
    ((storeJobPerform "t2" rdSample [rowSample]).map Row.queuePosition =
      (if ([rowSample] : List Row).any (fun r => r.torrentId = "t2") then
        [rowSample].map Row.queuePosition
      else [rowSample].map Row.queuePosition ++ [-1])) ∧
    ((storeJobPerform "t1" rdSample [rowSample]).map Row.queuePosition =
      (if ([rowSample] : List Row).any (fun r => r.torrentId = "t1") then
        [rowSample].map Row.queuePosition
      else [rowSample].map Row.queuePosition ++ [-1])) ∧
    rowSample ∈ removeJobPerform "t2" [rowSample] :=
  ⟨(store_never_writes_queue_position "t2" rdSample [rowSample]).1,
    (store_never_writes_queue_position "t1" rdSample [rowSample]).1,
    (store_never_writes_queue_position "t2" rdSample [rowSample]).2 rowSample
      (by decide) (by decide)⟩

/-- C1 counterexample: storing a descriptor without content metadata
over an existing row does not leave the metadata column absent and does
not touch the queue position: the conflict-update column list omits
queue_position always and omits metadata for such a descriptor, so the
row keeps its old metadata blob and its old position 7. -/
theorem store_full_replace_cex :
    (storedRow "t1" rdSample).metadata = none ∧
    (storeJobPerform "t1" rdSample [rowSample]).map Row.metadata = [some metaSample] ∧
    (storeJobPerform "t1" rdSample [rowSample]).map Row.queuePosition = [7] := by
  refine ⟨rfl, ?_, ?_⟩ <;> decide

/-- C1 (amended): a store job on an already-persisted TaskID replaces
exactly the columns listed in its upsert statement with the values
encoded from the new descriptor; the queue_position column always keeps
its prior value, the metadata column keeps its prior value whenever the
new descriptor carries no content metadata, rows with other identifiers
are untouched, and no row is added or removed. -/
theorem store_replaces_written_columns (id : TorrentID) (rd : LoadTorrentParams)
    (db : List Row) (r : Row) (hmem : r ∈ db) (hid : r.torrentId = id) :
    (storeJobPerform id rd db).length = db.length ∧
    (∀ x : Row, x.torrentId ≠ id → (x ∈ storeJobPerform id rd db ↔ x ∈ db)) ∧
    { storedRow id rd with
        queuePosition := r.queuePosition
        metadata := if (storedRow id rd).metadata.isSome then (storedRow id rd).metadata
          else r.metadata } ∈ storeJobPerform id rd db := by
  have hany : db.any (fun x => x.torrentId = id) = true := by
    rw [List.any_eq_true]
    exact ⟨r, hmem, by simp [hid]⟩
  have hnewid : (storedRow id rd).torrentId = id := by simp [storedRow]
  refine ⟨?_, ?_, ?_⟩
  · simp [storeJobPerform, hany]
  · intro x hx
    constructor
    · intro hmem2
      simp only [storeJobPerform, hany, if_true] at hmem2
      obtain ⟨y, hy, hxy⟩ := List.mem_map.mp hmem2
      by_cases hy2 : y.torrentId = id
      · exfalso
        apply hx
        rw [← hxy]
        simp [hy2, hnewid]
      · rw [if_neg hy2] at hxy
        exact hxy ▸ hy
    · intro hmem2
      simp only [storeJobPerform, hany, if_true]
      apply List.mem_map.mpr
      exact ⟨x, hmem2, by simp [hx]⟩
  · simp only [storeJobPerform, hany, if_true]
    apply List.mem_map.mpr
    exact ⟨r, hmem, by simp [hid]⟩

/-- C1 witness: concrete application on a one-row table whose row is
overwritten by a store for the same identifier. -/
theorem store_replaces_written_columns_witness :
    (storeJobPerform "t1" rdSample [rowSample]).length = ([rowSample] : List Row).length ∧
    { storedRow "t1" rdSample with
        queuePosition := rowSample.queuePosition
        metadata := if (storedRow "t1" rdSample).metadata.isSome then (storedRow "t1" rdSample).metadata
          else rowSample.metadata } ∈ storeJobPerform "t1" rdSample [rowSample] :=
  ⟨(store_replaces_written_columns "t1" rdSample [rowSample] rowSample (by decide) (by decide)).1,
    (store_replaces_written_columns "t1" rdSample [rowSample] rowSample (by decide) (by decide)).2.2⟩

/-- C2 counterexample: a row whose stored resume blob fails to decode is
loaded as a record anyway; the code never checks the libtorrent error
codes, so no corrupt-record error is signalled. -/
theorem load_corrupt_returns_record_cex :
    ({ rowSample with resumeData := StoredBlob.undecodable } : Row).resumeData
      = StoredBlob.undecodable ∧
    loadReturnsRecord (load "t1" [{ rowSample with resumeData := StoredBlob.undecodable }])
      = true := by
  exact ⟨rfl, rfl⟩

/-- C2 (amended): load signals its not-found error exactly when no row
with the identifier exists; whenever such a row exists load returns a
record, even when the stored resume blob fails to decode (the decode
error codes are ignored and default-constructed params result). -/
theorem load_not_found_iff_no_row (id : TorrentID) (db : List Row) :
    ((load id db = Except.error LoadError.notFound) ↔ (∀ r ∈ db, r.torrentId ≠ id)) ∧
    (∀ r ∈ db, r.torrentId = id → loadReturnsRecord (load id db) = true) := by
  constructor
  · constructor
    · intro h r hr hid
      cases hf : db.find? (fun x => x.torrentId = id) with
      | none =>
        rw [List.find?_eq_none] at hf
        exact hf r hr (by simp [hid])
      | some row => simp [load, hf] at h
    · intro hall
      have hnone : db.find? (fun x => x.torrentId = id) = none := by
        rw [List.find?_eq_none]
        intro x hx
        simp [hall x hx]
      simp [load, hnone]
  · intro r hr hid
    cases hf : db.find? (fun x => x.torrentId = id) with
    | none =>
      exfalso
      rw [List.find?_eq_none] at hf
      exact hf r hr (by simp [hid])
    | some row => simp [load, loadReturnsRecord, hf]

/-- C2 witness: on a one-row table, loading an absent identifier yields
the not-found error and loading the present identifier yields a
record. -/
theorem load_not_found_iff_no_row_witness :
    (load "t9" [rowSample] = Except.error LoadError.notFound) ∧
    loadReturnsRecord (load "t1" [rowSample]) = true :=
  ⟨((load_not_found_iff_no_row "t9" [rowSample]).1).mpr (by decide),
    (load_not_found_iff_no_row "t1" [rowSample]).2 rowSample (by decide) (by decide)⟩

/-- Sample open input: a pre-existing file at stored version 5 with all
columns present and no SQL failure. -/
def openInputV5 : OpenInput := { existing := some { hasDownloadPathColumn := true, storedVersion := some 5 }, sqlFailure := false }

/-- Sample open input: no pre-existing file, no SQL failure. -/
def openInputFresh : OpenInput := { existing := none, sqlFailure := false }

/-- Sample open input: a pre-existing file missing the download_path
column, no SQL failure. -/
def openInputNoCol : OpenInput := { existing := some { hasDownloadPathColumn := false, storedVersion := some 3 }, sqlFailure := false }

/-- Sample open input: a pre-existing file with all columns but an
unreadable version counter, no SQL failure. -/
def openInputBadVer : OpenInput := { existing := some { hasDownloadPathColumn := true, storedVersion := none }, sqlFailure := false }

/-- C4 counterexample: a pre-existing file that already has the
download_path column and stores version 5 opens successfully and keeps
stored version 5, which differs from CURRENT_VERSION = 4; the
constructor only migrates when the inferred version is below
DB_VERSION. -/
theorem open_version_cex :
    openStorage openInputV5 = OpenResult.ok 5 ∧ (5 : Int) ≠ DB_VERSION := by
  exact ⟨rfl, by decide⟩

/-- C4 (amended): whenever open returns successfully after a fresh
creation, after inferring a version below CURRENT_VERSION, or for a
file missing the download-path column (treated as version 1), the
stored schema version equals CURRENT_VERSION; an SQL failure or an
unreadable version counter aborts the open; a pre-existing version at
or above CURRENT_VERSION is kept unchanged, so in general a successful
open establishes max of the inferred version and CURRENT_VERSION. -/
theorem open_establishes_version (inp : OpenInput) :
    (inp.sqlFailure = true → openStorage inp = OpenResult.fatal) ∧
    (inp.sqlFailure = false → inp.existing = none → openStorage inp = OpenResult.ok DB_VERSION) ∧
    (∀ f, inp.sqlFailure = false → inp.existing = some f →
      (f.hasDownloadPathColumn = false →
        inferredDBVersion f = some 1 ∧ openStorage inp = OpenResult.ok DB_VERSION) ∧
      (inferredDBVersion f = none → openStorage inp = OpenResult.fatal) ∧
      (∀ v, inferredDBVersion f = some v →
        openStorage inp = OpenResult.ok (max v DB_VERSION))) := by
  refine ⟨?_, ?_, ?_⟩
  · intro h
    simp [openStorage, h]
  · intro h hn
    simp [openStorage, h, hn]
  · intro f hsf hex
    refine ⟨?_, ?_, ?_⟩
    · intro hcol
      refine ⟨by simp [inferredDBVersion, hcol], ?_⟩
      simp [openStorage, hsf, hex, inferredDBVersion, hcol, DB_VERSION]
    · intro hnone
      simp [openStorage, hsf, hex, hnone]
    · intro v hv
      simp only [openStorage, hsf, Bool.false_eq_true, if_false, hex, hv]
      by_cases h : v < DB_VERSION
      · rw [if_pos h, max_eq_right (le_of_lt h)]
      · rw [if_neg h, max_eq_left (not_lt.mp h)]

/-- C4 witness: a fresh creation stores version 4, a file missing the
download-path column migrates to version 4, and an unreadable version
counter aborts. -/
theorem open_establishes_version_witness :
    openStorage openInputFresh = OpenResult.ok DB_VERSION ∧
    openStorage openInputNoCol = OpenResult.ok DB_VERSION ∧
    openStorage openInputBadVer = OpenResult.fatal :=
  ⟨(open_establishes_version openInputFresh).2.1 rfl rfl,
    (((open_establishes_version openInputNoCol).2.2 { hasDownloadPathColumn := false, storedVersion := some 3 } rfl rfl).1 rfl).2,
    ((open_establishes_version openInputBadVer).2.2 { hasDownloadPathColumn := true, storedVersion := none } rfl rfl).2.1 rfl⟩

/-- Helper: inserting into the ordered list adds one element. -/
theorem insertByQueuePos_length (r : Row) (l : List Row) :
    (insertByQueuePos r l).length = l.length + 1 := by
  induction l with
  | nil => rfl
  | cons x xs ih =>
    simp only [insertByQueuePos]
    by_cases h : r.queuePosition ≤ x.queuePosition <;> simp [h, ih]

/-- Helper: ordering by queue position preserves the number of rows. -/
theorem sortByQueuePos_length (l : List Row) :
    (sortByQueuePos l).length = l.length := by
  induction l with
  | nil => rfl
  | cons x xs ih => simp [sortByQueuePos, insertByQueuePos_length, ih]

/-- C3 counterexample: already on the empty store, the doLoadAll trace
releases the read lock (position 2) strictly before it emits the finish
event (position 3): the QReadLocker scope ends at the inner block while
loadFinished is emitted outside it, so the finish event is not observed
under the lock. -/
theorem loadAll_finish_after_unlock_cex :
    doLoadAllTrace [] = [LoadAllEvent.lockAcquired, LoadAllEvent.startEvent [],
      LoadAllEvent.lockReleased, LoadAllEvent.finishEvent] ∧
    (doLoadAllTrace [])[2]? = some LoadAllEvent.lockReleased ∧
    (doLoadAllTrace [])[3]? = some LoadAllEvent.finishEvent := by
  exact ⟨rfl, rfl, rfl⟩

/-- C3 (amended): in every doLoadAll execution the read lock is held
continuously from before the start event through after the last record
event; the lock is then released, and the finish event is emitted only
after the release, outside the lock. -/
theorem loadAll_lock_span (db : List Row) :
    (doLoadAllTrace db)[0]? = some LoadAllEvent.lockAcquired ∧
    (doLoadAllTrace db)[1]? = some (LoadAllEvent.startEvent (registeredTorrents db)) ∧
    (∀ i id rd, (doLoadAllTrace db)[i]? = some (LoadAllEvent.recordEvent id rd) →
      1 < i ∧ i < db.length + 2) ∧
    (doLoadAllTrace db)[db.length + 2]? = some LoadAllEvent.lockReleased ∧
    (doLoadAllTrace db)[db.length + 3]? = some LoadAllEvent.finishEvent ∧
    (doLoadAllTrace db).length = db.length + 4 := by
  have hmid : ((sortByQueuePos db).map
      (fun r => LoadAllEvent.recordEvent r.torrentId (parseQueryResultRow r))).length
      = db.length := by
    rw [List.length_map, sortByQueuePos_length]
  refine ⟨rfl, by simp [doLoadAllTrace], ?_, ?_, ?_, ?_⟩
  · intro i id rd h
    match i with
    | 0 => exact absurd h (by simp [doLoadAllTrace])
    | 1 => exact absurd h (by simp [doLoadAllTrace])
    | n + 2 =>
      simp only [doLoadAllTrace, List.cons_append, List.nil_append,
        List.getElem?_cons_succ] at h
      have h2 : (((sortByQueuePos db).map
          (fun r => LoadAllEvent.recordEvent r.torrentId (parseQueryResultRow r)))
          ++ [LoadAllEvent.lockReleased, LoadAllEvent.finishEvent])[n]?
          = some (LoadAllEvent.recordEvent id rd) := h
      by_cases hn : n < ((sortByQueuePos db).map
          (fun r => LoadAllEvent.recordEvent r.torrentId (parseQueryResultRow r))).length
      · rw [hmid] at hn
        omega
      · exfalso
        rw [List.getElem?_append_right (Nat.not_lt.mp hn)] at h2
        rcases hk : n - ((sortByQueuePos db).map
            (fun r => LoadAllEvent.recordEvent r.torrentId (parseQueryResultRow r))).length
          with _ | _ | k <;> rw [hk] at h2 <;> simp at h2
  · simp only [doLoadAllTrace, List.cons_append, List.nil_append, List.getElem?_cons_succ]
    rw [List.getElem?_append_right (le_of_eq hmid), hmid]
    simp
  · have hstep : db.length + 3 = (db.length + 2) + 1 := rfl
    simp only [doLoadAllTrace, List.cons_append, List.nil_append, hstep,
      List.getElem?_cons_succ]
    rw [List.getElem?_append_right (by omega : ((sortByQueuePos db).map
        (fun r => LoadAllEvent.recordEvent r.torrentId (parseQueryResultRow r))).length
        ≤ db.length + 1), hmid]
    simp
  · simp [doLoadAllTrace, sortByQueuePos_length]

/-- C3 witness: concrete application on a one-row store; the single
record event sits at position 2, strictly between the start event and
the lock release. -/
theorem loadAll_lock_span_witness :
    ((doLoadAllTrace [rowSample])[0]? = some LoadAllEvent.lockAcquired) ∧
    (1 < 2 ∧ 2 < ([rowSample] : List Row).length + 2) ∧
    ((doLoadAllTrace [rowSample])[([rowSample] : List Row).length + 2]?
      = some LoadAllEvent.lockReleased) :=
  ⟨(loadAll_lock_span [rowSample]).1,
    (loadAll_lock_span [rowSample]).2.2.1 2 "t1" (parseQueryResultRow rowSample) rfl,
    (loadAll_lock_span [rowSample]).2.2.2.1⟩

/-- Helper: truncating an integer-valued rational toward zero yields
that integer. -/
theorem ratTrunc_intCast (k : Int) : ratTrunc (k : ℚ) = k := by
  unfold ratTrunc
  simp

/-- Helper: encoding an exact multiple of one thousandth stores the
scaled integer unchanged. -/
theorem encodeRatioLimit_exact (k : Int) : encodeRatioLimit ((k : ℚ) / 1000) = k := by
  unfold encodeRatioLimit
  rw [div_mul_cancel₀ _ (by norm_num : (1000 : ℚ) ≠ 0)]
  exact ratTrunc_intCast k

/-- Helper: value of the ratio_limit column written by the store job. -/
theorem storedRow_ratioLimit (id : TorrentID) (rd : LoadTorrentParams) :
    (storedRow id rd).ratioLimit = encodeRatioLimit rd.ratioLimit := by
  simp [storedRow]

/-- Helper: ratio limit field recovered by the row parser. -/
theorem parse_ratioLimit (row : Row) :
    (parseQueryResultRow row).ratioLimit = decodeRatioLimit row.ratioLimit := by
  simp [parseQueryResultRow]

/-- C8: the ratio limit is stored as the integer obtained by scaling by
1000 (truncated toward zero) and loaded as that integer divided by
1000, so every ratio limit that is an exact multiple of 1/1000 within
the 32-bit column range survives a store-then-load round trip, while
the value 1.2345 comes back as 1.234. -/
theorem ratio_limit_scaled_round_trip :
    (∀ (id : TorrentID) (rd : LoadTorrentParams) (k : Int),
      rd.ratioLimit = (k : ℚ) / 1000 → -(2 ^ 31) ≤ k → k ≤ 2 ^ 31 - 1 →
      (parseQueryResultRow (storedRow id rd)).ratioLimit = rd.ratioLimit) ∧
    (parseQueryResultRow (storedRow "t1" { rdSample with ratioLimit := 2469 / 2000 })).ratioLimit
      ≠ ({ rdSample with ratioLimit := 2469 / 2000 } : LoadTorrentParams).ratioLimit := by
  constructor
  · intro id rd k hk _ _
    rw [parse_ratioLimit, storedRow_ratioLimit, hk, encodeRatioLimit_exact]
    rfl
  · rw [parse_ratioLimit, storedRow_ratioLimit]
    have hrl : ({ rdSample with ratioLimit := 2469 / 2000 } : LoadTorrentParams).ratioLimit
        = (2469 : ℚ) / 2000 := rfl
    rw [hrl]
    have h1 : ((2469 : ℚ) / 2000) * 1000 = ((2469 : Int) : ℚ) / ((2 : Int) : ℚ) := by
      norm_num
    have hn : (((2469 : Int) : ℚ) / ((2 : Int) : ℚ)).num = 2469 :=
      Rat.num_div_eq_of_coprime (by norm_num) (by norm_num)
    have hd : ((((2469 : Int) : ℚ) / ((2 : Int) : ℚ)).den : ℤ) = 2 :=
      Rat.den_div_eq_of_coprime (by norm_num) (by norm_num)
    have h2 : encodeRatioLimit ((2469 : ℚ) / 2000) = 1234 := by
      unfold encodeRatioLimit ratTrunc
      rw [h1, hn, hd]
      decide
    rw [h2]
    unfold decodeRatioLimit
    intro hcontra
    have := div_eq_div_iff (by norm_num : (1000 : ℚ) ≠ 0) (by norm_num : (2000 : ℚ) ≠ 0)
      |>.mp hcontra
    norm_num at this

/-- C8 witness: the exact multiple 1500/1000 of one thousandth survives
the round trip. -/
theorem ratio_limit_scaled_round_trip_witness :
    ({ rdSample with ratioLimit := 1500 / 1000 } : LoadTorrentParams).ratioLimit
      = ((1500 : Int) : ℚ) / 1000 ∧
    -(2 ^ 31) ≤ (1500 : Int) ∧ (1500 : Int) ≤ 2 ^ 31 - 1 ∧
    (parseQueryResultRow (storedRow "t1" { rdSample with ratioLimit := 1500 / 1000 })).ratioLimit
      = ({ rdSample with ratioLimit := 1500 / 1000 } : LoadTorrentParams).ratioLimit :=
  ⟨by norm_num, by decide, by decide,
    ratio_limit_scaled_round_trip.1 "t1" { rdSample with ratioLimit := 1500 / 1000 } 1500
      (by norm_num) (by decide) (by decide)⟩

/-- Helper: a split always produces at least one part. -/
theorem splitOnChar_ne_nil (c : Char) (l : List Char) : splitOnChar c l ≠ [] := by
  cases l with
  | nil => simp [splitOnChar]
  | cons x xs =>
    simp only [splitOnChar]
    cases splitOnChar c xs with
    | nil => simp
    | cons y ys => by_cases h : x = c <;> simp [h]

/-- Helper: splitting a separator-free string yields that single part. -/
theorem splitOnChar_no_sep (c : Char) (t : List Char) (h : c ∉ t) :
    splitOnChar c t = [t] := by
  induction t with
  | nil => rfl
  | cons x xs ih =>
    have hx : x ≠ c := fun hx => h (hx ▸ List.mem_cons_self x xs)
    have hxs : c ∉ xs := fun hm => h (List.mem_cons_of_mem x hm)
    simp only [splitOnChar, ih hxs]
    rw [if_neg hx]

/-- Helper: splitting past a separator-free prefix followed by one
separator peels off exactly that prefix. -/
theorem splitOnChar_sep_append (c : Char) (t l : List Char) (h : c ∉ t) :
    splitOnChar c (t ++ c :: l) = t :: splitOnChar c l := by
  induction t with
  | nil =>
    simp only [List.nil_append, splitOnChar]
    cases hs : splitOnChar c l with
    | nil => exact absurd hs (splitOnChar_ne_nil c l)
    | cons y ys => simp
  | cons x xs ih =>
    have hx : x ≠ c := fun hx => h (hx ▸ List.mem_cons_self x xs)
    have hxs : c ∉ xs := fun hm => h (List.mem_cons_of_mem x hm)
    simp only [List.cons_append, splitOnChar, List.append_eq, ih hxs]
    rw [if_neg hx]

/-- Helper: joining a nonempty list of nonempty parts is nonempty. -/
theorem joinSep_ne_nil (c : Char) : ∀ ts : List Tag, ts ≠ [] → (∀ t ∈ ts, t ≠ []) →
    joinSep c ts ≠ []
  | [], h, _ => absurd rfl h
  | [t], _, h2 => by simpa [joinSep] using h2 t (by simp)
  | t :: t2 :: ts2, _, _ => by simp [joinSep]

/-- Helper: splitting the join of nonempty separator-free parts
recovers the parts. -/
theorem splitOnChar_joinSep (c : Char) : ∀ ts : List Tag, ts ≠ [] → (∀ t ∈ ts, c ∉ t) →
    splitOnChar c (joinSep c ts) = ts
  | [], h, _ => absurd rfl h
  | [t], _, hsep => by simpa [joinSep] using splitOnChar_no_sep c t (hsep t (by simp))
  | t :: t2 :: ts2, _, hsep => by
    have ih := splitOnChar_joinSep c (t2 :: ts2) (by simp)
      (fun x hx => hsep x (List.mem_cons_of_mem t hx))
    simp only [joinSep]
    rw [splitOnChar_sep_append c t _ (hsep t (List.mem_cons_self t _)), ih]

/-- Helper: the tag codec round-trips on nonempty comma-free tag
lists. -/
theorem decodeTags_encodeTags (ts : List Tag) (h : ∀ t ∈ ts, (',' ∈ t → False) ∧ t ≠ []) :
    decodeTags (encodeTags ts) = ts := by
  cases ts with
  | nil => rfl
  | cons t rest =>
    have hjoin : joinSep ',' (t :: rest) ≠ [] :=
      joinSep_ne_nil ',' (t :: rest) (by simp) (fun x hx => (h x hx).2)
    have hsplit := splitOnChar_joinSep ',' (t :: rest) (by simp) (fun x hx => (h x hx).1)
    simp only [encodeTags, List.isEmpty_cons, Bool.false_eq_true, if_false, decodeTags]
    rw [if_neg (by simpa using hjoin), hsplit]

/-- Helper: tags column value written by the store job. -/
theorem storedRow_tags (id : TorrentID) (rd : LoadTorrentParams) :
    (storedRow id rd).tags = encodeTags rd.tags := by
  simp [storedRow]

/-- Helper: tag set recovered by the row parser. -/
theorem parse_tags (row : Row) :
    (parseQueryResultRow row).tags = decodeTags row.tags := by
  simp [parseQueryResultRow]

/-- Sample descriptor with the single empty tag. -/
def rdEmptyTag : LoadTorrentParams := { rdSample with tags := [[]] }

/-- Sample descriptor with one tag containing an embedded comma. -/
def rdCommaTag : LoadTorrentParams := { rdSample with tags := [['a', ',', 'b']] }

/-- Sample descriptor with two ordinary tags. -/
def rdTwoTags : LoadTorrentParams := { rdSample with tags := [['a'], ['b']] }

/-- C10 counterexample: the single empty tag contains no comma, yet its
join is the empty string, which the loader treats like an absent value,
so the loaded tag set is empty and differs from the stored one. -/
theorem tags_round_trip_cex :
    rdEmptyTag.tags = [[]] ∧
    (',' ∈ ([] : Tag) → False) ∧
    (parseQueryResultRow (storedRow "t1" rdEmptyTag)).tags = [] := by
  exact ⟨rfl, by simp, rfl⟩

/-- C10 (amended): the tag set round-trips through store-then-load for
tag sets all of whose tags are nonempty and comma-free (the empty set
is stored as an absent value and loaded as empty); a tag with an
embedded comma is split at the comma on load, and a tag set consisting
of one empty tag is joined to the empty string and loaded as the empty
set. -/
theorem tags_round_trip :
    (∀ (id : TorrentID) (rd : LoadTorrentParams),
      (∀ t ∈ rd.tags, (',' ∈ t → False) ∧ t ≠ []) →
      (parseQueryResultRow (storedRow id rd)).tags = rd.tags) ∧
    (∀ (id : TorrentID) (rd : LoadTorrentParams), rd.tags = [] →
      (storedRow id rd).tags = none ∧ (parseQueryResultRow (storedRow id rd)).tags = []) ∧
    ((parseQueryResultRow (storedRow "t1" rdCommaTag)).tags ≠ rdCommaTag.tags) := by
  refine ⟨?_, ?_, ?_⟩
  · intro id rd h
    rw [parse_tags, storedRow_tags, decodeTags_encodeTags rd.tags h]
  · intro id rd h
    constructor
    · rw [storedRow_tags, h]
      rfl
    · rw [parse_tags, storedRow_tags, h]
      rfl
  · rw [parse_tags, storedRow_tags]
    decide

/-- C10 witness: the two comma-free tags a and b survive the round
trip. -/
theorem tags_round_trip_witness :
    (',' ∈ (['a'] : Tag) → False) ∧
    (parseQueryResultRow (storedRow "t1" rdTwoTags)).tags = rdTwoTags.tags :=
  ⟨by decide, tags_round_trip.1 "t1" rdTwoTags (by decide)⟩

/-- Helper: a permutation of a two-element list is one of its two
arrangements. -/
theorem perm_pair_cases {α : Type*} {x y a b : α} (h : List.Perm [x, y] [a, b]) :
    (x = a ∧ y = b) ∨ (x = b ∧ y = a) := by
  have hx : x ∈ [a, b] := h.mem_iff.mp (by simp)
  rcases (by simpa using hx : x = a ∨ x = b) with hxa | hxb
  · rw [hxa] at h
    exact Or.inl ⟨hxa, by simpa using List.perm_singleton.mp h.cons_inv⟩
  · rw [hxb] at h
    have h2 : List.Perm [y] [a] := (h.trans (List.Perm.swap b a [])).cons_inv
    exact Or.inr ⟨hxb, by simpa using List.perm_singleton.mp h2⟩

/-- Helper: a permutation of a three-element list is one of its six
arrangements. -/
theorem perm_triple_cases {α : Type*} {x y z a b c : α} (h : List.Perm [x, y, z] [a, b, c]) :
    (x = a ∧ y = b ∧ z = c) ∨ (x = a ∧ y = c ∧ z = b) ∨
    (x = b ∧ y = a ∧ z = c) ∨ (x = b ∧ y = c ∧ z = a) ∨
    (x = c ∧ y = a ∧ z = b) ∨ (x = c ∧ y = b ∧ z = a) := by
  have hx : x ∈ [a, b, c] := h.mem_iff.mp (by simp)
  rcases (by simpa using hx : x = a ∨ x = b ∨ x = c) with hxa | hxb | hxc
  · rw [hxa] at h
    rcases perm_pair_cases h.cons_inv with ⟨h3, h4⟩ | ⟨h3, h4⟩
    · exact Or.inl ⟨hxa, h3, h4⟩
    · exact Or.inr (Or.inl ⟨hxa, h3, h4⟩)
  · rw [hxb] at h
    have h2 : List.Perm [y, z] [a, c] := (h.trans (List.Perm.swap b a [c])).cons_inv
    rcases perm_pair_cases h2 with ⟨h3, h4⟩ | ⟨h3, h4⟩
    · exact Or.inr (Or.inr (Or.inl ⟨hxb, h3, h4⟩))
    · exact Or.inr (Or.inr (Or.inr (Or.inl ⟨hxb, h3, h4⟩)))
  · rw [hxc] at h
    have h2 : List.Perm [y, z] [a, b] :=
      (h.trans ((List.Perm.cons a (List.Perm.swap c b [])).trans
        (List.Perm.swap c a [b]))).cons_inv
    rcases perm_pair_cases h2 with ⟨h3, h4⟩ | ⟨h3, h4⟩
    · exact Or.inr (Or.inr (Or.inr (Or.inr (Or.inl ⟨hxc, h3, h4⟩))))
    · exact Or.inr (Or.inr (Or.inr (Or.inr (Or.inr ⟨hxc, h3, h4⟩))))

/-- Helper: on a three-identifier queue with distinct identifiers, the
reorder job acts pointwise, assigning each row the index of its
identifier in the queue and leaving other rows alone. -/
theorem reorder_assign (a b c : TorrentID) (hab : a ≠ b) (hac : a ≠ c) (hbc : b ≠ c)
    (db : List Row) :
    storeQueueJobPerform [a, b, c] db = db.map (fun r =>
      if r.torrentId = a then { r with queuePosition := 0 }
      else if r.torrentId = b then { r with queuePosition := 1 }
      else if r.torrentId = c then { r with queuePosition := 2 }
      else r) := by
  simp only [storeQueueJobPerform, storeQueueGo, setQueuePos, List.map_map]
  apply List.map_congr_left
  intro r _
  simp only [Function.comp]
  by_cases ha : r.torrentId = a
  · simp [ha, hab, hac, Ne.symm hab, Ne.symm hac]
  · by_cases hb : r.torrentId = b
    · simp [ha, hb, hbc, Ne.symm hab, Ne.symm hbc]
    · by_cases hc : r.torrentId = c
      · simp [ha, hb, hc, Ne.symm hac, Ne.symm hbc]
      · simp [ha, hb, hc]

/-- C7: when the persisted rows carry exactly the identifiers a, b, c
(pairwise distinct), a reorder job for the sequence a, b, c assigns
each identifier its zero-based index as queue position, and the
identifier listing ordered by queue position afterwards returns exactly
that sequence. -/
theorem reorder_sets_positions_and_order (a b c : TorrentID) (db : List Row)
    (hab : a ≠ b) (hac : a ≠ c) (hbc : b ≠ c)
    (hperm : List.Perm (db.map Row.torrentId) [a, b, c]) :
    (∀ r ∈ storeQueueJobPerform [a, b, c] db,
      (r.torrentId = a → r.queuePosition = 0) ∧
      (r.torrentId = b → r.queuePosition = 1) ∧
      (r.torrentId = c → r.queuePosition = 2)) ∧
    registeredTorrents (storeQueueJobPerform [a, b, c] db) = [a, b, c] := by
  constructor
  · intro r hr
    rw [reorder_assign a b c hab hac hbc db] at hr
    obtain ⟨r0, _, hr0⟩ := List.mem_map.mp hr
    subst hr0
    by_cases ha : r0.torrentId = a
    · simp [ha, hab, hac, Ne.symm hab, Ne.symm hac]
    · by_cases hb : r0.torrentId = b
      · simp [ha, hb, hbc, Ne.symm hab, Ne.symm hbc]
      · by_cases hc : r0.torrentId = c
        · simp [ha, hb, hc, Ne.symm hac, Ne.symm hbc]
        · simp [ha, hb, hc]
  · have hlen : db.length = 3 := by simpa using hperm.length_eq
    rcases db with _ | ⟨r1, db1⟩
    · simp at hlen
    rcases db1 with _ | ⟨r2, db2⟩
    · simp at hlen
    rcases db2 with _ | ⟨r3, db3⟩
    · simp at hlen
    rcases db3 with _ | ⟨r4, db4⟩
    swap
    · simp only [List.length_cons] at hlen
      omega
    simp only [List.map_cons, List.map_nil] at hperm
    rw [reorder_assign a b c hab hac hbc]
    rcases perm_triple_cases hperm with ⟨h1, h2, h3⟩ | ⟨h1, h2, h3⟩ | ⟨h1, h2, h3⟩ |
        ⟨h1, h2, h3⟩ | ⟨h1, h2, h3⟩ | ⟨h1, h2, h3⟩ <;>
      simp [registeredTorrents, sortByQueuePos, insertByQueuePos,
        h1, h2, h3, hab, hac, hbc, Ne.symm hab, Ne.symm hac, Ne.symm hbc]

/-- Sample row with identifier a and stale queue position 5. -/
def rowA : Row := { rowSample with torrentId := "a", queuePosition := 5 }

/-- Sample row with identifier b and stale queue position 1. -/
def rowB : Row := { rowSample with torrentId := "b", queuePosition := 1 }

/-- Sample row with identifier c and stale queue position 3. -/
def rowC : Row := { rowSample with torrentId := "c", queuePosition := 3 }

/-- C7 witness: reordering a concrete three-row table stored in the
order b, c, a by the sequence a, b, c makes the listing return a, b,
c. -/
theorem reorder_sets_positions_and_order_witness :
    ("a" : TorrentID) ≠ "b" ∧
    registeredTorrents (storeQueueJobPerform ["a", "b", "c"] [rowB, rowC, rowA])
      = ["a", "b", "c"] :=
  ⟨by decide,
    (reorder_sets_positions_and_order "a" "b" "c" [rowB, rowC, rowA]
      (by decide) (by decide) (by decide) (by decide)).2⟩

end DBResume
